import Mathlib

/-!
Shallow embedding of the Customer-support-bot frontend:
the chat page (`ChatInterface` with `sendMessage`, `resetChat`, `MarkdownText`)
and the admin dashboard (`AdminDashboard` with its filter effect and `stats`).
Definitions are translated directly from the TypeScript source.
-/

namespace CSBot

/-- Session status union type `'active' | 'escalated'` from the source. -/
inductive Status where
  | active
  | escalated
deriving DecidableEq, Repr

/-- Message role union type `'user' | 'assistant'`. -/
inductive Role where
  | user
  | assistant
deriving DecidableEq, Repr

/-- JavaScript `String.prototype.trim()`: strip leading and trailing
whitespace (modelled on the underlying character list). -/
def jsTrim (s : String) : String :=
  String.mk (((s.data.dropWhile Char.isWhitespace).reverse.dropWhile Char.isWhitespace).reverse)

namespace Chat

/-- The chat page's `Message` interface (role, content, timestamp). -/
structure Message where
  role : Role
  content : String
  timestamp : Nat
deriving DecidableEq, Repr

/-- The chat page's `ChatResponse` interface: the successful response body of
POST /api/chat exactly as the source declares it. -/
structure ChatResponse where
  session_id : String
  response : String
  is_escalated : Bool
  status : Status
  summary : Option String
deriving DecidableEq, Repr

/-- The literal `API_BASE_URL` constant. -/
def API_BASE_URL : String := "http://localhost:8000"

/-- The request body built by `sendMessage`: `user_message` always,
`session_id` only when the component state holds a (truthy) session id. -/
structure ChatRequest where
  user_message : String
  session_id : Option String
deriving DecidableEq, Repr

/-- An HTTP request issued by the page: method, url, and (for POST) body. -/
structure SentRequest where
  method : String
  url : String
  body : ChatRequest
deriving DecidableEq, Repr

/-- The chat component's React state: `messages`, `inputMessage`, `sessionId`,
`isLoading`, `error`, `isEscalated`. -/
structure ChatState where
  messages : List Message
  inputMessage : String
  sessionId : Option String
  isLoading : Bool
  error : Option String
  isEscalated : Bool
deriving DecidableEq, Repr

/-- Initial component state (the `useState` initializers; also what
`resetChat` restores). -/
def initialChatState : ChatState :=
  { messages := [], inputMessage := "", sessionId := none,
    isLoading := false, error := none, isEscalated := false }

/-- The `resetChat` handler: clears messages, session id, escalation flag,
error and input. -/
def resetChat (_s : ChatState) : ChatState := initialChatState

/-- JavaScript truthiness of the `sessionId` state (`string | null`):
`null` and the empty string are falsy. -/
def jsTruthy : Option String → Bool
  | none => false
  | some s => s != ""

/-- The ways the `fetch` in `sendMessage` can fail: a non-OK status
(404 / 500-with-detail / other) or a thrown error (network failure,
JSON parse failure). -/
inductive FetchError where
  | notFound
  | serverError (detail : Option String)
  | otherStatus (code : Nat)
  | thrown (msg : String)
deriving DecidableEq, Repr

/-- The error message produced for each failure branch of `sendMessage`
(the `throw new Error(...)` strings, and `err.message` for thrown errors). -/
def FetchError.message : FetchError → String
  | .notFound => "Session not found. Starting a new conversation."
  | .serverError detail =>
    match detail with
    | some d => if d = "" then "Server error occurred" else d
    | none => "Server error occurred"
  | .otherStatus code => "Request failed with status " ++ toString code
  | .thrown msg => msg

/-- Outcome of the awaited fetch: a parsed `ChatResponse` or a failure,
each tagged with the time at which the handler resumes. -/
inductive FetchOutcome where
  | ok (data : ChatResponse) (tRecv : Nat)
  | fail (e : FetchError) (tRecv : Nat)
deriving DecidableEq, Repr

/-- The assistant text appended by `sendMessage` for a given outcome:
`data.response` on success, the explicit try-again message on failure. -/
def assistantReply : FetchOutcome → String
  | .ok data _ => data.response
  | .fail e _ => "Sorry, I encountered an error: " ++ e.message ++ ". Please try again."

/-- Resumption time of the outcome (timestamp of the assistant message). -/
def recvTime : FetchOutcome → Nat
  | .ok _ t => t
  | .fail _ t => t

/-- The `sendMessage` handler, as a function of the pre-call state, the send
time, and the outcome of the single fetch it performs.  Returns the state
after the call completes, together with the HTTP request it issued (`none`
when the guard `!inputMessage.trim() || isLoading` suppresses the call). -/
def sendMessage (s : ChatState) (tSend : Nat) (o : FetchOutcome) :
    ChatState × Option SentRequest :=
  if jsTrim s.inputMessage == "" || s.isLoading then (s, none)
  else
    let userMessage := jsTrim s.inputMessage
    let req : SentRequest :=
      { method := "POST", url := API_BASE_URL ++ "/api/chat",
        body := { user_message := userMessage,
                  session_id := if jsTruthy s.sessionId then s.sessionId else none } }
    let afterUser := s.messages ++ [{ role := .user, content := userMessage, timestamp := tSend }]
    match o with
    | .ok data t =>
      ({ messages := afterUser ++ [{ role := .assistant, content := data.response, timestamp := t }],
         inputMessage := "",
         sessionId := if !jsTruthy s.sessionId && data.session_id != "" then
             some data.session_id else s.sessionId,
         isLoading := false,
         error := none,
         isEscalated := if data.is_escalated then true else s.isEscalated }, some req)
    | .fail e t =>
      ({ messages := afterUser ++
           [{ role := .assistant,
              content := "Sorry, I encountered an error: " ++ e.message ++ ". Please try again.",
              timestamp := t }],
         inputMessage := "",
         sessionId := s.sessionId,
         isLoading := false,
         error := some e.message,
         isEscalated := s.isEscalated }, some req)

/-- One user turn: the text typed, the moment it is sent, and the fetch
outcome observed for it. -/
structure CallInput where
  text : String
  tSend : Nat
  outcome : FetchOutcome
deriving DecidableEq, Repr

/-- Typing into the input box (`setInputMessage`). -/
def typeInput (s : ChatState) (x : String) : ChatState := { s with inputMessage := x }

/-- A sequence of completed `sendMessage` calls, each preceded by typing
the corresponding text. -/
def runCalls : ChatState → List CallInput → ChatState
  | s, [] => s
  | s, c :: rest => runCalls (sendMessage (typeInput s c.text) c.tSend c.outcome).1 rest

/-- The pair of messages a completed call appends: the trimmed user message
followed by the assistant reply. -/
def callMessages (c : CallInput) : List Message :=
  [{ role := .user, content := jsTrim c.text, timestamp := c.tSend },
   { role := .assistant, content := assistantReply c.outcome, timestamp := recvTime c.outcome }]

end Chat

namespace Admin

/-- The admin page's `Conversation` interface (one row of GET /api/conversations). -/
structure Conversation where
  session_id : String
  status : Status
  created_at : String
  updated_at : String
  message_count : Nat
  is_escalated : Bool
  summary : Option String
deriving DecidableEq, Repr

/-- The admin page's status filter select: `'all' | 'active' | 'escalated'`. -/
inductive StatusFilter where
  | all
  | active
  | escalated
deriving DecidableEq, Repr

/-- Case test used by the filter: does the conversation's status match the
selected filter value (`conv.status === statusFilter`)? -/
def statusEqFilter (c : Conversation) : StatusFilter → Bool
  | .all => false
  | .active => c.status == Status.active
  | .escalated => c.status == Status.escalated

/-- Does `needle` occur at the start of `hay`? (helper for `includes`). -/
def beginsWith : List Char → List Char → Bool
  | _, [] => true
  | [], _ :: _ => false
  | a :: hs, b :: ns => a == b && beginsWith hs ns

/-- JavaScript `hay.includes(needle)` on the underlying characters. -/
def containsSub : List Char → List Char → Bool
  | [], ns => ns.isEmpty
  | h :: hs, ns => beginsWith (h :: hs) ns || containsSub hs ns

/-- JavaScript `hay.includes(needle)` on strings. -/
def strIncludes (hay needle : String) : Bool := containsSub hay.data needle.data

/-- JavaScript `s.toLowerCase()` (modelled on the underlying characters). -/
def jsToLower (s : String) : String := String.mk (s.data.map Char.toLower)

/-- The search predicate applied when `searchTerm` is non-empty:
`conv.session_id.toLowerCase().includes(term.toLowerCase()) ||
 (conv.summary && conv.summary.toLowerCase().includes(term.toLowerCase()))`.
An absent or empty (falsy) summary yields no match through the summary arm. -/
def searchMatches (c : Conversation) (term : String) : Bool :=
  strIncludes (jsToLower c.session_id) (jsToLower term) ||
    (match c.summary with
     | some s => if s = "" then false else strIncludes (jsToLower s) (jsToLower term)
     | none => false)

/-- The filter effect of `AdminDashboard`: starting from `conversations`,
apply the status filter when it is not `'all'`, then the search filter when
`searchTerm` is truthy; the result is stored in `filteredConversations`. -/
def computeFiltered (conversations : List Conversation) (searchTerm : String)
    (statusFilter : StatusFilter) : List Conversation :=
  let f1 :=
    if statusFilter = StatusFilter.all then conversations
    else conversations.filter (fun c => statusEqFilter c statusFilter)
  if searchTerm = "" then f1
  else f1.filter (fun c => searchMatches c searchTerm)

/-- The spec-side selection predicate of claim C7: status matches the filter
(or the filter is `'all'`), and `session_id` or `summary` contains the search
term case-insensitively. -/
def claimPred (term : String) (filt : StatusFilter) (c : Conversation) : Bool :=
  (match filt with
   | StatusFilter.all => true
   | StatusFilter.active => c.status == Status.active
   | StatusFilter.escalated => c.status == Status.escalated) &&
  (strIncludes (jsToLower c.session_id) (jsToLower term) ||
    (match c.summary with
     | some s => strIncludes (jsToLower s) (jsToLower term)
     | none => false))

/-- The `stats` record computed by the admin dashboard. -/
structure Stats where
  total : Nat
  active : Nat
  escalated : Nat
  avgMessages : ℤ
deriving DecidableEq, Repr

/-- The `stats` computation: totals by status and the guarded rounded mean
of `message_count` (0 for an empty list). -/
def stats (conversations : List Conversation) : Stats :=
  { total := conversations.length,
    active := (conversations.filter (fun c => c.status == Status.active)).length,
    escalated := (conversations.filter (fun c => c.status == Status.escalated)).length,
    avgMessages :=
      if 0 < conversations.length then
        round ((((conversations.map Conversation.message_count).sum : ℚ)) / (conversations.length : ℚ))
      else 0 }

/-- The admin page's own `API_BASE_URL` constant. -/
def API_BASE_URL : String := "http://localhost:8000"

/-- An HTTP endpoint invocation: method and url (ignoring body). -/
structure HttpCall where
  method : String
  url : String
deriving DecidableEq, Repr

/-- The single fetch performed by `fetchConversations`. -/
def fetchConversationsCall : HttpCall :=
  { method := "GET", url := API_BASE_URL ++ "/api/conversations" }

/-- The single fetch performed by `fetchConversationDetail(sessionId)`. -/
def fetchConversationDetailCall (sessionId : String) : HttpCall :=
  { method := "GET", url := API_BASE_URL ++ "/api/conversations/" ++ sessionId }

end Admin

/-- A call is one of the three exposed backend operations: send message
(POST /api/chat), list sessions (GET /api/conversations), or fetch session
detail (GET /api/conversations/{session_id}). -/
def isExposedOperation (c : Admin.HttpCall) : Prop :=
  (c.method = "POST" ∧ c.url = Chat.API_BASE_URL ++ "/api/chat") ∨
  (c.method = "GET" ∧ c.url = Admin.API_BASE_URL ++ "/api/conversations") ∨
  (c.method = "GET" ∧ ∃ sid : String, c.url = Admin.API_BASE_URL ++ "/api/conversations/" ++ sid)

namespace Markdown

/-- A React node emitted by `renderText`: a plain text run or a
`<strong>` (bold) run. -/
inductive Part where
  | plain (s : String)
  | bold (s : String)
deriving DecidableEq, Repr

/-- The text carried by a part. -/
def Part.text : Part → String
  | .plain s => s
  | .bold s => s

/-- Characters of the concatenated texts of a part list. -/
def partsChars (ps : List Part) : List Char :=
  (ps.map fun p => (Part.text p).data).flatten

/-- Attempt to match the alternation `\*\*([^*]+)\*\*` at the start of a
character list with `k` opening stars already consumed conceptually:
take the maximal non-empty run of non-star characters, then require the
matching closing stars.  Returns the captured group and the characters
after the whole match. -/
def matchClose2 (rest : List Char) : Option (List Char × List Char) :=
  match rest.dropWhile (fun c => c != '*') with
  | '*' :: '*' :: tail =>
    if (rest.takeWhile (fun c => c != '*')).isEmpty then none
    else some (rest.takeWhile (fun c => c != '*'), tail)
  | _ => none

/-- Attempt to match `\*([^*]+)\*` after the single opening star. -/
def matchClose1 (rest : List Char) : Option (List Char × List Char) :=
  match rest.dropWhile (fun c => c != '*') with
  | '*' :: tail =>
    if (rest.takeWhile (fun c => c != '*')).isEmpty then none
    else some (rest.takeWhile (fun c => c != '*'), tail)
  | _ => none

/-- Attempt to match the regex `\*\*([^*]+)\*\*|\*([^*]+)\*` at the start of
the character list (trying the first alternative first, as the JS engine
does; when the double-star alternative fails at a position starting with
`**`, the single-star alternative necessarily fails there too, since the
character after the first star is a star). -/
def matchAt : List Char → Option (List Char × List Char)
  | [] => none
  | a :: rest =>
    if a = '*' then
      match rest with
      | b :: rest2 => if b = '*' then matchClose2 rest2 else matchClose1 rest
      | [] => matchClose1 rest
    else none

theorem matchClose2_spec {rest body tail : List Char}
    (h : matchClose2 rest = some (body, tail)) :
    rest = body ++ '*' :: '*' :: tail ∧ body ≠ [] ∧ ∀ c ∈ body, ¬c = '*' := by
  unfold matchClose2 at h
  split at h
  case _ tail' heq =>
    split at h
    · exact absurd h (by simp)
    case _ hne =>
      obtain ⟨hb, ht⟩ := Prod.mk.injEq .. ▸ Option.some.injEq .. ▸ h
      subst hb; subst ht
      refine ⟨?_, by simpa [List.isEmpty_iff] using hne, ?_⟩
      · conv_lhs => rw [(List.takeWhile_append_dropWhile (p := fun c => c != '*') (l := rest)).symm]
        rw [heq]
      · intro c hc
        have := List.mem_takeWhile_imp hc
        simpa using this
  · exact absurd h (by simp)

theorem matchClose1_spec {rest body tail : List Char}
    (h : matchClose1 rest = some (body, tail)) :
    rest = body ++ '*' :: tail ∧ body ≠ [] ∧ ∀ c ∈ body, ¬c = '*' := by
  unfold matchClose1 at h
  split at h
  case _ tail' heq =>
    split at h
    · exact absurd h (by simp)
    case _ hne =>
      obtain ⟨hb, ht⟩ := Prod.mk.injEq .. ▸ Option.some.injEq .. ▸ h
      subst hb; subst ht
      refine ⟨?_, by simpa [List.isEmpty_iff] using hne, ?_⟩
      · conv_lhs => rw [(List.takeWhile_append_dropWhile (p := fun c => c != '*') (l := rest)).symm]
        rw [heq]
      · intro c hc
        have := List.mem_takeWhile_imp hc
        simpa using this
  · exact absurd h (by simp)

theorem matchAt_spec {cs body tail : List Char}
    (h : matchAt cs = some (body, tail)) :
    (cs = '*' :: '*' :: (body ++ '*' :: '*' :: tail) ∨ cs = '*' :: (body ++ '*' :: tail)) ∧
      body ≠ [] ∧ ∀ c ∈ body, ¬c = '*' := by
  cases cs with
  | nil => exact absurd h (by simp [matchAt])
  | cons a rest =>
    by_cases ha : a = '*'
    · subst ha
      cases rest with
      | nil => exact absurd h (by simp [matchAt, matchClose1])
      | cons b rest2 =>
        by_cases hb : b = '*'
        · subst hb
          have h2 : matchClose2 rest2 = some (body, tail) := by simpa [matchAt] using h
          obtain ⟨h1, h2', h3⟩ := matchClose2_spec h2
          exact ⟨Or.inl (by rw [h1]), h2', h3⟩
        · have h2 : matchClose1 (b :: rest2) = some (body, tail) := by
            simpa [matchAt, hb] using h
          obtain ⟨h1, h2', h3⟩ := matchClose1_spec h2
          exact ⟨Or.inr (by rw [h1]), h2', h3⟩
    · exact absurd h (by simp [matchAt, ha])

theorem matchAt_tail_lt {cs body tail : List Char}
    (h : matchAt cs = some (body, tail)) : tail.length < cs.length := by
  obtain ⟨h1 | h1, _, _⟩ := matchAt_spec h <;> subst h1 <;> simp <;> omega

/-- The `while ((match = boldRegex.exec(input)) !== null)` loop: `pending`
accumulates the plain characters between the previous match end and the
current scan position; a match flushes the pending run (when non-empty, as
`match.index > lastIndex` requires), emits a bold part, and resumes after
the match; end of input flushes the final remainder. -/
def scanAux (pending : List Char) (cs : List Char) : List Part :=
  match h : matchAt cs with
  | some (body, tail) =>
    (if pending.isEmpty then ([] : List Part) else [Part.plain (String.mk pending)]) ++
      Part.bold (String.mk body) :: scanAux [] tail
  | none =>
    match cs with
    | [] => if pending.isEmpty then [] else [Part.plain (String.mk pending)]
    | c :: rest => scanAux (pending ++ [c]) rest
termination_by cs.length
decreasing_by
  · exact matchAt_tail_lt h
  · simp

/-- The value of `renderText(input)`: the collected parts, or (per the
final `parts.length > 0 ? parts : input`) the raw input when no part was
collected. -/
def renderText (input : String) : List Part :=
  let parts := scanAux [] input.data
  if parts.isEmpty then [Part.plain input] else parts

/-- The claim's reference result, following the spec words "the input with
only the `**`/`*` bold markers removed": walk the input left to right; at
the leftmost position where the bold regex matches, keep the captured body
and delete the delimiter stars of that match; keep every other character
unchanged.  Built on `matchAt` (the regex alternation) only — independent
of the part-collecting machinery of `scanAux`. -/
def removeMarkers (cs : List Char) : List Char :=
  match h : matchAt cs with
  | some (body, tail) => body ++ removeMarkers tail
  | none =>
    match cs with
    | [] => []
    | c :: rest => c :: removeMarkers rest
termination_by cs.length
decreasing_by
  · exact matchAt_tail_lt h
  · simp

end Markdown

namespace Chat

theorem sendMessage_guard (s : ChatState) (tSend : Nat) (o : FetchOutcome)
    (h : (jsTrim s.inputMessage == "" || s.isLoading) = true) :
    sendMessage s tSend o = (s, none) := by
  simp [sendMessage, h]

theorem sendMessage_completed (s : ChatState) (tSend : Nat) (o : FetchOutcome)
    (h : (jsTrim s.inputMessage == "" || s.isLoading) = false) :
    (sendMessage s tSend o).1.messages
      = s.messages ++
        [{ role := .user, content := jsTrim s.inputMessage, timestamp := tSend },
         { role := .assistant, content := assistantReply o, timestamp := recvTime o }] ∧
    (sendMessage s tSend o).1.isLoading = false ∧
    (sendMessage s tSend o).2
      = some { method := "POST", url := API_BASE_URL ++ "/api/chat",
               body := { user_message := jsTrim s.inputMessage,
                         session_id := if jsTruthy s.sessionId then s.sessionId else none } } := by
  cases o with
  | ok data t => simp [sendMessage, h, assistantReply, recvTime]
  | fail e t => simp [sendMessage, h, assistantReply, recvTime]

theorem sendMessage_isEscalated_mono (s : ChatState) (tSend : Nat) (o : FetchOutcome)
    (h : s.isEscalated = true) : ((sendMessage s tSend o).1).isEscalated = true := by
  cases hg : (jsTrim s.inputMessage == "" || s.isLoading) with
  | true => rw [sendMessage_guard s tSend o hg]; exact h
  | false =>
    cases o with
    | ok data t => simp [sendMessage, hg, h]
    | fail e t => simp [sendMessage, hg, h]

theorem runCalls_isEscalated_mono (calls : List CallInput) :
    ∀ s : ChatState, s.isEscalated = true → (runCalls s calls).isEscalated = true := by
  induction calls with
  | nil => intro s h; exact h
  | cons c rest ih =>
    intro s h
    exact ih _ (sendMessage_isEscalated_mono (typeInput s c.text) c.tSend c.outcome h)

theorem runCalls_messages (calls : List CallInput) :
    ∀ s : ChatState, s.isLoading = false → (∀ c ∈ calls, jsTrim c.text ≠ "") →
      (runCalls s calls).messages = s.messages ++ (calls.map callMessages).flatten ∧
      (runCalls s calls).isLoading = false := by
  induction calls with
  | nil => intro s h1 _; simp [runCalls, h1]
  | cons c rest ih =>
    intro s h1 h2
    have hne : jsTrim c.text ≠ "" := h2 c (List.mem_cons_self _ _)
    have hguard : ((jsTrim (typeInput s c.text).inputMessage == "")
        || (typeInput s c.text).isLoading) = false := by
      simp [typeInput, h1, hne]
    obtain ⟨hm, hl, -⟩ := sendMessage_completed (typeInput s c.text) c.tSend c.outcome hguard
    obtain ⟨ihm, ihl⟩ := ih _ hl (fun x hx => h2 x (List.mem_cons_of_mem _ hx))
    refine ⟨?_, by rw [runCalls]; exact ihl⟩
    rw [runCalls, ihm, hm]
    simp [typeInput, callMessages]

theorem callMessages_flatten_length (calls : List CallInput) :
    ((calls.map callMessages).flatten).length = 2 * calls.length := by
  induction calls with
  | nil => simp
  | cons c rest ih => simp [callMessages, ih]; omega

theorem callMessages_flatten_countP (calls : List CallInput) :
    ((calls.map callMessages).flatten).countP (fun m => m.role == Role.user) = calls.length ∧
    ((calls.map callMessages).flatten).countP (fun m => m.role == Role.assistant) = calls.length := by
  induction calls with
  | nil => simp
  | cons c rest ih =>
    obtain ⟨ih1, ih2⟩ := ih
    constructor <;> simp [callMessages, List.countP_cons, ih1, ih2]

theorem callMessages_flatten_roles (calls : List CallInput) :
    ∀ i, i < calls.length →
      (((calls.map callMessages).flatten)[2 * i]?).map Message.role = some Role.user ∧
      (((calls.map callMessages).flatten)[2 * i + 1]?).map Message.role = some Role.assistant := by
  induction calls with
  | nil => intro i h; simp at h
  | cons c rest ih =>
    intro i h
    cases i with
    | zero => simp [callMessages]
    | succ n =>
      have h2 : n < rest.length := by simpa using h
      have e1 : 2 * (n + 1) = (2 * n + 1) + 1 := by ring
      have e2 : 2 * (n + 1) + 1 = ((2 * n + 1) + 1) + 1 := by ring
      simp only [List.map_cons, List.flatten_cons, callMessages, List.cons_append,
        List.nil_append, e1, e2, List.getElem?_cons_succ]
      exact ih n h2

theorem sendMessage_sessionId_ne_empty (s : ChatState) (tSend : Nat) (o : FetchOutcome)
    (h : s.sessionId ≠ some "") : ((sendMessage s tSend o).1).sessionId ≠ some "" := by
  cases hg : (jsTrim s.inputMessage == "" || s.isLoading) with
  | true => rw [sendMessage_guard _ _ _ hg]; exact h
  | false =>
    cases o with
    | ok data t =>
      have hsid : ((sendMessage s tSend (.ok data t)).1).sessionId
          = if !jsTruthy s.sessionId && data.session_id != "" then
              some data.session_id else s.sessionId := by
        simp [sendMessage, hg]
      rw [hsid]
      split

      next hc =>
        intro he
        have : data.session_id ≠ "" := by
          rcases Bool.and_eq_true_iff.mp hc with ⟨-, h2⟩
          simpa using h2
        exact this (Option.some.inj he)
      next => exact h
    | fail e t =>
      have hsid : ((sendMessage s tSend (.fail e t)).1).sessionId = s.sessionId := by
        simp [sendMessage, hg]
      rw [hsid]
      exact h

theorem runCalls_sessionId_ne_empty (calls : List CallInput) :
    ∀ s : ChatState, s.sessionId ≠ some "" →
      (runCalls s calls).sessionId ≠ some "" := by
  induction calls with
  | nil => intro s h; exact h
  | cons c rest ih =>
    intro s h
    exact ih _ (sendMessage_sessionId_ne_empty (typeInput s c.text) c.tSend c.outcome h)

end Chat

/-- C1: on a 404 response the chat page's `sendMessage` does NOT clear the
stored `sessionId`; it only records the error message "Session not found.
Starting a new conversation." — so the next send still carries the stale
`session_id` and no new session is started.  This theorem evaluates the
handler at the failing input. -/
theorem claim_C1_session_not_cleared_on_404 :
    ((Chat.sendMessage ⟨[], "hi", some "abc12345", false, none, false⟩ 0
        (.fail .notFound 1)).1.sessionId = some "abc12345") ∧
    ((Chat.sendMessage ⟨[], "hi", some "abc12345", false, none, false⟩ 0
        (.fail .notFound 1)).1.error
      = some "Session not found. Starting a new conversation.") ∧
    ((Chat.sendMessage (Chat.typeInput
        (Chat.sendMessage ⟨[], "hi", some "abc12345", false, none, false⟩ 0
          (.fail .notFound 1)).1 "again") 2 (.fail .notFound 3)).2.map
        (fun r => r.body.session_id) = some (some "abc12345")) := by
  refine ⟨by decide, by decide, by decide⟩

/-- C3: every completed `sendMessage` call with non-empty (trimmed) input
appends exactly the user message and one assistant reply: the response text
on success, and on any error the explicit message asking the user to try
again. -/
theorem claim_C3_always_one_assistant_reply (s : Chat.ChatState) (tSend : Nat)
    (o : Chat.FetchOutcome)
    (h : (jsTrim s.inputMessage == "" || s.isLoading) = false) :
    (Chat.sendMessage s tSend o).1.messages
      = s.messages ++
        [{ role := .user, content := jsTrim s.inputMessage, timestamp := tSend },
         { role := .assistant, content := Chat.assistantReply o,
           timestamp := Chat.recvTime o }] ∧
    (∀ data t, o = .ok data t → Chat.assistantReply o = data.response) ∧
    (∀ e t, o = .fail e t → Chat.assistantReply o
      = "Sorry, I encountered an error: " ++ e.message ++ ". Please try again.") := by
  refine ⟨(Chat.sendMessage_completed s tSend o h).1, ?_, ?_⟩
  · intro data t ho; rw [ho]; rfl
  · intro e t ho; rw [ho]; rfl

theorem claim_C3_witness :
    ((jsTrim "hi" == "" || false) = false) ∧
    ((Chat.sendMessage ⟨[], "hi", none, false, none, false⟩ 0
        (.fail (.thrown "network down") 1)).1.messages
      = [{ role := .user, content := "hi", timestamp := 0 },
         { role := .assistant,
           content := "Sorry, I encountered an error: network down. Please try again.",
           timestamp := 1 }]) := by
  refine ⟨by decide, ?_⟩
  have h := (claim_C3_always_one_assistant_reply ⟨[], "hi", none, false, none, false⟩ 0
    (.fail (.thrown "network down") 1) (by decide)).1
  rw [h]
  decide

/-- C4: the escalated flag is monotonic in the chat UI: it is preserved by
every `sendMessage` step (hence by any sequence of steps within a session),
and any completed call whose response reports `is_escalated = true` sets it;
no response with `is_escalated = false` ever resets it. -/
theorem claim_C4_escalation_monotonic :
    (∀ (s : Chat.ChatState) (t : Nat) (o : Chat.FetchOutcome),
        s.isEscalated = true → ((Chat.sendMessage s t o).1).isEscalated = true) ∧
    (∀ (s : Chat.ChatState) (calls : List Chat.CallInput),
        s.isEscalated = true → (Chat.runCalls s calls).isEscalated = true) ∧
    (∀ (s : Chat.ChatState) (t : Nat) (data : Chat.ChatResponse) (tr : Nat),
        (jsTrim s.inputMessage == "" || s.isLoading) = false →
        data.is_escalated = true →
        ((Chat.sendMessage s t (.ok data tr)).1).isEscalated = true) := by
  refine ⟨Chat.sendMessage_isEscalated_mono, fun s calls => Chat.runCalls_isEscalated_mono calls s, ?_⟩
  intro s t data tr hguard hesc
  simp [Chat.sendMessage, hguard, hesc]

theorem claim_C4_witness :
    ((⟨[], "x", none, false, none, true⟩ : Chat.ChatState).isEscalated = true) ∧
    (((Chat.sendMessage ⟨[], "x", none, false, none, true⟩ 0
        (.ok ⟨"s1", "ok", false, .active, none⟩ 1)).1).isEscalated = true) ∧
    ((Chat.runCalls ⟨[], "", none, false, none, true⟩ []).isEscalated = true) ∧
    ((jsTrim "hi" == "" || false) = false) ∧
    (((Chat.sendMessage ⟨[], "hi", none, false, none, false⟩ 0
        (.ok ⟨"s1", "bye", true, .escalated, some "sum"⟩ 1)).1).isEscalated = true) := by
  refine ⟨rfl, claim_C4_escalation_monotonic.1 _ 0 _ rfl,
          claim_C4_escalation_monotonic.2.1 _ [] rfl, by decide,
          claim_C4_escalation_monotonic.2.2 _ 0 _ 1 (by decide) rfl⟩

/-- C5: when the input is empty after trimming (empty or whitespace-only) or
a send is in flight, `sendMessage` is a no-op: no HTTP request is issued and
the entire component state is unchanged. -/
theorem claim_C5_guard_noop (s : Chat.ChatState) (tSend : Nat) (o : Chat.FetchOutcome)
    (h : jsTrim s.inputMessage = "" ∨ s.isLoading = true) :
    Chat.sendMessage s tSend o = (s, none) := by
  apply Chat.sendMessage_guard
  rcases h with h | h <;> simp [h]

theorem claim_C5_witness :
    (jsTrim "   " = "" ∨ (false : Bool) = true) ∧
    Chat.sendMessage ⟨[], "   ", none, false, none, false⟩ 0 (.fail .notFound 1)
      = (⟨[], "   ", none, false, none, false⟩, none) := by
  refine ⟨Or.inl (by decide), ?_⟩
  exact claim_C5_guard_noop ⟨[], "   ", none, false, none, false⟩ 0 (.fail .notFound 1)
    (Or.inl (by decide))

/-- C6: a completed `sendMessage` issues exactly one POST whose body has
`user_message` set to the trimmed input and `session_id` present if and only
if a session id is already known (given the invariant that a stored session
id is never the empty string, which holds for every reachable state). -/
theorem claim_C6_request_shape (s : Chat.ChatState) (tSend : Nat) (o : Chat.FetchOutcome)
    (hguard : (jsTrim s.inputMessage == "" || s.isLoading) = false)
    (hsid : s.sessionId ≠ some "") :
    (Chat.sendMessage s tSend o).2
      = some { method := "POST", url := Chat.API_BASE_URL ++ "/api/chat",
               body := { user_message := jsTrim s.inputMessage,
                         session_id := s.sessionId } } ∧
    (∀ r, (Chat.sendMessage s tSend o).2 = some r →
      (r.body.session_id.isSome ↔ s.sessionId.isSome)) := by
  have heq : (if Chat.jsTruthy s.sessionId then s.sessionId else none) = s.sessionId := by
    cases hs : s.sessionId with
    | none => simp [Chat.jsTruthy]
    | some v =>
      have hv : v ≠ "" := fun e => hsid (by rw [hs, e])
      simp [Chat.jsTruthy, hv]
  have h3 := (Chat.sendMessage_completed s tSend o hguard).2.2
  rw [heq] at h3
  refine ⟨h3, ?_⟩
  intro r hr
  rw [h3] at hr
  cases hr
  rfl

theorem claim_C6_witness :
    ((jsTrim "hello" == "" || false) = false) ∧
    ((some "sess42" : Option String) ≠ some "") ∧
    ((Chat.sendMessage ⟨[], "hello", some "sess42", false, none, false⟩ 0
          (.ok ⟨"sess42", "hi there", false, .active, none⟩ 1)).2
        = some { method := "POST", url := Chat.API_BASE_URL ++ "/api/chat",
                 body := { user_message := "hello", session_id := some "sess42" } }) := by
  refine ⟨by decide, by decide, ?_⟩
  have h := (claim_C6_request_shape ⟨[], "hello", some "sess42", false, none, false⟩ 0
    (.ok ⟨"sess42", "hi there", false, .active, none⟩ 1) (by decide) (by decide)).1
  rw [h]
  decide

/-- C2: N completed `sendMessage` calls with non-empty (trimmed) input,
starting from a fresh session, leave exactly the 2N-entry history made of
the per-call user/assistant pairs in insertion order: N user entries, N
assistant entries, and for every i the 2i-th entry is the i-th user message
immediately followed by the corresponding assistant reply. -/
theorem claim_C2_round_trip (calls : List Chat.CallInput)
    (h : ∀ c ∈ calls, jsTrim c.text ≠ "") :
    (Chat.runCalls Chat.initialChatState calls).messages
      = (calls.map Chat.callMessages).flatten ∧
    (Chat.runCalls Chat.initialChatState calls).messages.length = 2 * calls.length ∧
    (Chat.runCalls Chat.initialChatState calls).messages.countP
      (fun m => m.role == Role.user) = calls.length ∧
    (Chat.runCalls Chat.initialChatState calls).messages.countP
      (fun m => m.role == Role.assistant) = calls.length ∧
    ∀ i, i < calls.length →
      ((Chat.runCalls Chat.initialChatState calls).messages[2 * i]?).map
        Chat.Message.role = some Role.user ∧
      ((Chat.runCalls Chat.initialChatState calls).messages[2 * i + 1]?).map
        Chat.Message.role = some Role.assistant := by
  obtain ⟨hm, -⟩ := Chat.runCalls_messages calls Chat.initialChatState rfl h
  have hm' : (Chat.runCalls Chat.initialChatState calls).messages
      = (calls.map Chat.callMessages).flatten := by
    simpa [Chat.initialChatState] using hm
  refine ⟨hm', ?_, ?_, ?_, ?_⟩
  · rw [hm']; exact Chat.callMessages_flatten_length calls
  · rw [hm']; exact (Chat.callMessages_flatten_countP calls).1
  · rw [hm']; exact (Chat.callMessages_flatten_countP calls).2
  · intro i hi
    rw [hm']
    exact Chat.callMessages_flatten_roles calls i hi

theorem claim_C2_witness :
    (∀ c ∈ [(⟨"hi", 0, .ok ⟨"s1", "Hello!", false, .active, none⟩ 1⟩ : Chat.CallInput),
            ⟨" help ", 2, .fail .notFound 3⟩], jsTrim c.text ≠ "") ∧
    (Chat.runCalls Chat.initialChatState
        [⟨"hi", 0, .ok ⟨"s1", "Hello!", false, .active, none⟩ 1⟩,
         ⟨" help ", 2, .fail .notFound 3⟩]).messages.length = 2 * 2 := by
  have hh : ∀ c ∈ [(⟨"hi", 0, .ok ⟨"s1", "Hello!", false, .active, none⟩ 1⟩ : Chat.CallInput),
      ⟨" help ", 2, .fail .notFound 3⟩], jsTrim c.text ≠ "" := by decide
  refine ⟨hh, ?_⟩
  have h := (claim_C2_round_trip
    [⟨"hi", 0, .ok ⟨"s1", "Hello!", false, .active, none⟩ 1⟩,
     ⟨" help ", 2, .fail .notFound 3⟩] hh).2.1
  simpa using h

theorem containsSub_nil_needle (hay : List Char) : Admin.containsSub hay [] = true := by
  cases hay <;> simp [Admin.containsSub, Admin.beginsWith]

theorem jsToLower_data (s : String) : (Admin.jsToLower s).data = s.data.map Char.toLower := rfl

theorem data_ne_nil_of_ne_empty {s : String} (h : s ≠ "") : s.data ≠ [] := by
  intro hd
  apply h
  cases s with
  | mk d =>
    have hd' : d = [] := hd
    rw [hd']

theorem searchMatches_eq_claim {term : String} (hterm : term ≠ "")
    (c : Admin.Conversation) :
    Admin.searchMatches c term
      = (Admin.strIncludes (Admin.jsToLower c.session_id) (Admin.jsToLower term) ||
          (match c.summary with
           | some s => Admin.strIncludes (Admin.jsToLower s) (Admin.jsToLower term)
           | none => false)) := by
  unfold Admin.searchMatches
  cases hs : c.summary with
  | none => rfl
  | some s =>
    by_cases he : s = ""
    · subst he
      have hne : ¬term.data = [] := data_ne_nil_of_ne_empty hterm
      have hfalse : Admin.strIncludes (Admin.jsToLower "") (Admin.jsToLower term) = false := by
        simp [Admin.strIncludes, Admin.containsSub, jsToLower_data, List.isEmpty_iff, hne]
      simp [hfalse]
    · simp [he]

/-- C7: the dashboard's filtering is purely collaborator-side and matches
the spec predicate exactly: `filteredConversations` equals the conversations
whose status matches the selected filter (all of them when the filter is
`'all'`) and whose `session_id` or `summary` contains the search term
case-insensitively, and it is an order-preserving sublist of the fetched
list. -/
theorem claim_C7_filtering (conversations : List Admin.Conversation)
    (searchTerm : String) (statusFilter : Admin.StatusFilter) :
    Admin.computeFiltered conversations searchTerm statusFilter
      = conversations.filter (Admin.claimPred searchTerm statusFilter) ∧
    List.Sublist (Admin.computeFiltered conversations searchTerm statusFilter) conversations := by
  have heq : Admin.computeFiltered conversations searchTerm statusFilter
      = conversations.filter (Admin.claimPred searchTerm statusFilter) := by
    by_cases hterm : searchTerm = ""
    · subst hterm
      have hsearch : ∀ c : Admin.Conversation,
          (Admin.strIncludes (Admin.jsToLower c.session_id) (Admin.jsToLower "") ||
            (match c.summary with
             | some s => Admin.strIncludes (Admin.jsToLower s) (Admin.jsToLower "")
             | none => false)) = true := by
        intro c
        have : Admin.strIncludes (Admin.jsToLower c.session_id) (Admin.jsToLower "") = true := by
          simp [Admin.strIncludes, jsToLower_data, containsSub_nil_needle]
        simp [this]
      cases statusFilter with
      | all =>
        simp only [Admin.computeFiltered, if_pos rfl, reduceIte]
        symm
        apply List.filter_eq_self.mpr
        intro c _
        simp [Admin.claimPred, hsearch c]
      | active =>
        simp only [Admin.computeFiltered, if_pos rfl, reduceIte]
        apply List.filter_congr
        intro c _
        simp [Admin.statusEqFilter, Admin.claimPred, hsearch c]
      | escalated =>
        simp only [Admin.computeFiltered, if_pos rfl, reduceIte]
        apply List.filter_congr
        intro c _
        simp [Admin.statusEqFilter, Admin.claimPred, hsearch c]
    · cases statusFilter with
      | all =>
        simp only [Admin.computeFiltered, if_pos rfl, if_neg hterm]
        apply List.filter_congr
        intro c _
        rw [searchMatches_eq_claim hterm c]
        simp [Admin.claimPred]
      | active =>
        simp only [Admin.computeFiltered]
        rw [if_neg hterm,
          if_neg (by decide : ¬(Admin.StatusFilter.active = Admin.StatusFilter.all)),
          List.filter_filter]
        apply List.filter_congr
        intro c _
        rw [searchMatches_eq_claim hterm c]
        simp [Admin.statusEqFilter, Admin.claimPred, Bool.and_comm]
      | escalated =>
        simp only [Admin.computeFiltered]
        rw [if_neg hterm,
          if_neg (by decide : ¬(Admin.StatusFilter.escalated = Admin.StatusFilter.all)),
          List.filter_filter]
        apply List.filter_congr
        intro c _
        rw [searchMatches_eq_claim hterm c]
        simp [Admin.statusEqFilter, Admin.claimPred, Bool.and_comm]
  exact ⟨heq, heq ▸ List.filter_sublist _⟩

/-- C8: the chat page's only backend call is POST /api/chat, and the admin
page's only backend calls are GET /api/conversations and GET
/api/conversations/{session_id}: every request the modelled operations can
emit is one of the three exposed operations. -/
theorem claim_C8_only_exposed_operations :
    (∀ (s : Chat.ChatState) (t : Nat) (o : Chat.FetchOutcome) (r : Chat.SentRequest),
        (Chat.sendMessage s t o).2 = some r →
        isExposedOperation { method := r.method, url := r.url }) ∧
    isExposedOperation Admin.fetchConversationsCall ∧
    (∀ sid : String, isExposedOperation (Admin.fetchConversationDetailCall sid)) := by
  refine ⟨?_, Or.inr (Or.inl ⟨rfl, rfl⟩), fun sid => Or.inr (Or.inr ⟨rfl, sid, rfl⟩)⟩
  intro s t o r hr
  cases hg : (jsTrim s.inputMessage == "" || s.isLoading) with
  | true =>
    rw [Chat.sendMessage_guard s t o hg] at hr
    exact absurd hr (by simp)
  | false =>
    have h3 := (Chat.sendMessage_completed s t o hg).2.2
    rw [h3] at hr
    cases hr
    exact Or.inl ⟨rfl, rfl⟩

theorem claim_C8_witness :
    ((Chat.sendMessage ⟨[], "hi", none, false, none, false⟩ 0
        (.fail .notFound 1)).2
      = some { method := "POST", url := Chat.API_BASE_URL ++ "/api/chat",
               body := { user_message := "hi", session_id := none } }) ∧
    isExposedOperation { method := "POST", url := Chat.API_BASE_URL ++ "/api/chat" } := by
  constructor
  · decide
  · exact claim_C8_only_exposed_operations.1 ⟨[], "hi", none, false, none, false⟩ 0
      (.fail .notFound 1)
      { method := "POST", url := Chat.API_BASE_URL ++ "/api/chat",
        body := { user_message := "hi", session_id := none } } (by decide)

/-- C9: the dashboard's statistics are total and well-defined: for every
conversation list (statuses being exactly `'active' | 'escalated'`),
`stats.total = stats.active + stats.escalated`, and `stats.avgMessages` is 0
for the empty list (its division is guarded by `conversations.length > 0`). -/
theorem claim_C9_stats_welldefined (conversations : List Admin.Conversation) :
    (Admin.stats conversations).total
      = (Admin.stats conversations).active + (Admin.stats conversations).escalated ∧
    (Admin.stats ([] : List Admin.Conversation)).avgMessages = 0 := by
  refine ⟨?_, by simp [Admin.stats]⟩
  simp only [Admin.stats]
  induction conversations with
  | nil => simp
  | cons c rest ih =>
    cases hc : c.status with
    | active => simp [List.filter_cons, hc]; omega
    | escalated => simp [List.filter_cons, hc]; omega

namespace Markdown

theorem matchAt_cons_ne {c : Char} (h : ¬c = '*') (cs : List Char) :
    matchAt (c :: cs) = none := by
  simp [matchAt, h]

theorem scanAux_eq_match {cs body tail : List Char}
    (h : matchAt cs = some (body, tail)) (pending : List Char) :
    scanAux pending cs =
      (if pending.isEmpty then ([] : List Part) else [Part.plain (String.mk pending)]) ++
        Part.bold (String.mk body) :: scanAux [] tail := by
  rw [scanAux]
  split
  next b t heq =>
    rw [h] at heq
    obtain ⟨rfl, rfl⟩ : b = body ∧ t = tail := by
      cases heq; exact ⟨rfl, rfl⟩
    rfl
  next heq =>
    rw [h] at heq
    cases heq

theorem scanAux_nil_eq (pending : List Char) :
    scanAux pending [] = if pending.isEmpty then [] else [Part.plain (String.mk pending)] := by
  rw [scanAux]
  split
  next b t heq => simp [matchAt] at heq
  next => rfl

theorem scanAux_cons_none {c : Char} {cs : List Char} (h : matchAt (c :: cs) = none)
    (pending : List Char) :
    scanAux pending (c :: cs) = scanAux (pending ++ [c]) cs := by
  rw [scanAux]
  split
  next b t heq =>
    rw [h] at heq
    cases heq
  next => rfl

theorem data_mk (l : List Char) : (String.mk l).data = l := rfl

theorem partsChars_cons (p : Part) (ps : List Part) :
    partsChars (p :: ps) = (Part.text p).data ++ partsChars ps := by
  simp [partsChars]

theorem partsChars_flush (pending : List Char) (ps : List Part) :
    partsChars ((if pending.isEmpty then ([] : List Part)
        else [Part.plain (String.mk pending)]) ++ ps)
      = pending ++ partsChars ps := by
  by_cases h : pending.isEmpty
  · have hp : pending = [] := by simpa [List.isEmpty_iff] using h
    subst hp
    simp
  · simp [h, partsChars, Part.text]

theorem star_bne_star : (('*' : Char) != '*') = false := by decide

theorem scanAux_sublist :
    ∀ (n : Nat) (cs pending : List Char), cs.length ≤ n →
      List.Sublist (partsChars (scanAux pending cs)) (pending ++ cs) := by
  intro n
  induction n with
  | zero =>
    intro cs pending h
    have hcs : cs = [] := List.length_eq_zero.mp (Nat.le_zero.mp h)
    subst hcs
    rw [scanAux_nil_eq]
    by_cases hp : pending.isEmpty
    · simp [hp, partsChars]
    · simp [hp, partsChars, Part.text]
  | succ n ih =>
    intro cs pending h
    cases hm : matchAt cs with
    | none =>
      cases cs with
      | nil =>
        rw [scanAux_nil_eq]
        by_cases hp : pending.isEmpty
        · simp [hp, partsChars]
        · simp [hp, partsChars, Part.text]
      | cons c rest =>
        rw [scanAux_cons_none hm]
        have h2 : rest.length ≤ n := by
          simp only [List.length_cons] at h
          omega
        have := ih rest (pending ++ [c]) h2
        simpa [List.append_assoc] using this
    | some bt =>
      obtain ⟨body, tail⟩ := bt
      rw [scanAux_eq_match hm, partsChars_flush, partsChars_cons]
      obtain ⟨hdec, -, -⟩ := matchAt_spec hm
      have htl : tail.length ≤ n := by
        have := matchAt_tail_lt hm
        omega
      have IH : List.Sublist (partsChars (scanAux [] tail)) tail := by
        simpa using ih tail [] htl
      simp only [Part.text, data_mk]
      rcases hdec with h1 | h1 <;> rw [h1] <;> apply List.Sublist.append_left
      · exact (((IH.cons '*').cons '*').append_left body).trans
          ((List.sublist_cons_self '*' _).cons '*')
      · exact ((IH.cons '*').append_left body).trans (List.sublist_cons_self '*' _)

theorem scanAux_filter :
    ∀ (n : Nat) (cs pending : List Char), cs.length ≤ n →
      (partsChars (scanAux pending cs)).filter (fun c => c != '*')
        = (pending ++ cs).filter (fun c => c != '*') := by
  intro n
  induction n with
  | zero =>
    intro cs pending h
    have hcs : cs = [] := List.length_eq_zero.mp (Nat.le_zero.mp h)
    subst hcs
    rw [scanAux_nil_eq]
    by_cases hp : pending.isEmpty
    · have hp' : pending = [] := by simpa [List.isEmpty_iff] using hp
      subst hp'
      simp [partsChars]
    · simp [hp, partsChars, Part.text]
  | succ n ih =>
    intro cs pending h
    cases hm : matchAt cs with
    | none =>
      cases cs with
      | nil =>
        rw [scanAux_nil_eq]
        by_cases hp : pending.isEmpty
        · have hp' : pending = [] := by simpa [List.isEmpty_iff] using hp
          subst hp'
          simp [partsChars]
        · simp [hp, partsChars, Part.text]
      | cons c rest =>
        rw [scanAux_cons_none hm]
        have h2 : rest.length ≤ n := by
          simp only [List.length_cons] at h
          omega
        rw [ih rest (pending ++ [c]) h2]
        simp [List.append_assoc]
    | some bt =>
      obtain ⟨body, tail⟩ := bt
      rw [scanAux_eq_match hm, partsChars_flush, partsChars_cons]
      obtain ⟨hdec, -, hstar⟩ := matchAt_spec hm
      have htl : tail.length ≤ n := by
        have := matchAt_tail_lt hm
        omega
      have IH : (partsChars (scanAux [] tail)).filter (fun c => c != '*')
          = tail.filter (fun c => c != '*') := by
        simpa using ih tail [] htl
      have hbody : body.filter (fun c => c != '*') = body :=
        List.filter_eq_self.mpr (fun a ha => by simpa using hstar a ha)
      simp only [Part.text, data_mk]
      rcases hdec with h1 | h1 <;> rw [h1] <;>
        simp [List.filter_append, List.filter_cons, star_bne_star, hbody, IH]

theorem scanAux_noStar :
    ∀ (cs : List Char), (∀ c ∈ cs, ¬c = '*') → ∀ pending : List Char,
      scanAux pending cs
        = if (pending ++ cs).isEmpty then []
          else [Part.plain (String.mk (pending ++ cs))] := by
  intro cs
  induction cs with
  | nil =>
    intro _ pending
    rw [scanAux_nil_eq]
    simp
  | cons c rest ih =>
    intro h pending
    have hc : ¬c = '*' := h c (List.mem_cons_self _ _)
    rw [scanAux_cons_none (matchAt_cons_ne hc rest)]
    rw [ih (fun x hx => h x (List.mem_cons_of_mem _ hx)) (pending ++ [c])]
    simp

theorem removeMarkers_nil_eq : removeMarkers [] = [] := by
  rw [removeMarkers]
  split
  next b t heq => simp [matchAt] at heq
  next => rfl

theorem removeMarkers_eq_match {cs body tail : List Char}
    (h : matchAt cs = some (body, tail)) :
    removeMarkers cs = body ++ removeMarkers tail := by
  rw [removeMarkers]
  split
  next b t heq =>
    rw [h] at heq
    obtain ⟨rfl, rfl⟩ : b = body ∧ t = tail := by
      cases heq; exact ⟨rfl, rfl⟩
    rfl
  next heq =>
    rw [h] at heq
    cases heq

theorem removeMarkers_cons_none {c : Char} {cs : List Char}
    (h : matchAt (c :: cs) = none) :
    removeMarkers (c :: cs) = c :: removeMarkers cs := by
  rw [removeMarkers]
  split
  next b t heq =>
    rw [h] at heq
    cases heq
  next => rfl

theorem removeMarkers_eq_nil_iff (cs : List Char) :
    removeMarkers cs = [] ↔ cs = [] := by
  cases cs with
  | nil => simp [removeMarkers_nil_eq]
  | cons c rest =>
    cases hm : matchAt (c :: rest) with
    | some bt =>
      obtain ⟨body, tail⟩ := bt
      rw [removeMarkers_eq_match hm]
      obtain ⟨-, hne, -⟩ := matchAt_spec hm
      simp [hne]
    | none =>
      rw [removeMarkers_cons_none hm]
      simp

theorem scanAux_chars :
    ∀ (n : Nat) (cs pending : List Char), cs.length ≤ n →
      partsChars (scanAux pending cs) = pending ++ removeMarkers cs := by
  intro n
  induction n with
  | zero =>
    intro cs pending h
    have hcs : cs = [] := List.length_eq_zero.mp (Nat.le_zero.mp h)
    subst hcs
    rw [scanAux_nil_eq, removeMarkers_nil_eq]
    by_cases hp : pending.isEmpty
    · have hp' : pending = [] := by simpa [List.isEmpty_iff] using hp
      subst hp'
      simp [partsChars]
    · simp [hp, partsChars, Part.text]
  | succ n ih =>
    intro cs pending h
    cases hm : matchAt cs with
    | none =>
      cases cs with
      | nil =>
        rw [scanAux_nil_eq, removeMarkers_nil_eq]
        by_cases hp : pending.isEmpty
        · have hp' : pending = [] := by simpa [List.isEmpty_iff] using hp
          subst hp'
          simp [partsChars]
        · simp [hp, partsChars, Part.text]
      | cons c rest =>
        rw [scanAux_cons_none hm, removeMarkers_cons_none hm]
        have h2 : rest.length ≤ n := by
          simp only [List.length_cons] at h
          omega
        rw [ih rest (pending ++ [c]) h2]
        simp
    | some bt =>
      obtain ⟨body, tail⟩ := bt
      rw [scanAux_eq_match hm, removeMarkers_eq_match hm, partsChars_flush, partsChars_cons]
      have htl : tail.length ≤ n := by
        have := matchAt_tail_lt hm
        omega
      rw [ih tail [] htl]
      simp [Part.text, data_mk]

theorem removeMarkers_bold_example :
    removeMarkers ['*', '*', 'a', '*', '*'] = ['a'] := by
  rw [removeMarkers_eq_match
    (by decide : matchAt ['*', '*', 'a', '*', '*'] = some (['a'], [])), removeMarkers_nil_eq]
  rfl

theorem removeMarkers_stray_star_example :
    removeMarkers ['a', '*', 'b'] = ['a', '*', 'b'] := by
  rw [removeMarkers_cons_none (by decide), removeMarkers_cons_none (by decide),
    removeMarkers_cons_none (by decide), removeMarkers_nil_eq]

end Markdown

/-- C10: the markdown bold parser is the identity on marker-free text (for
any input with no `'*'` character, `renderText` yields the input unchanged),
and for every input the concatenated text of the emitted parts equals
`removeMarkers` of the input — the input with exactly the delimiter stars of
each (leftmost, double-star-first) bold match removed and every other
character kept; in particular it is a subsequence of the input that retains
every non-star character in order. -/
theorem claim_C10_markdown_renderText (input : String) :
    ('*' ∉ input.data → Markdown.renderText input = [Markdown.Part.plain input]) ∧
    Markdown.partsChars (Markdown.renderText input)
      = Markdown.removeMarkers input.data ∧
    List.Sublist (Markdown.partsChars (Markdown.renderText input)) input.data ∧
    (Markdown.partsChars (Markdown.renderText input)).filter (fun c => c != '*')
      = input.data.filter (fun c => c != '*') := by
  obtain ⟨data⟩ := input
  refine ⟨?_, ?_, ?_, ?_⟩
  · intro h
    have hns : ∀ c ∈ data, ¬c = '*' := fun c hc hceq => h (hceq ▸ hc)
    simp only [Markdown.renderText]
    rw [Markdown.scanAux_noStar data hns []]
    by_cases he : data.isEmpty
    · have hd : data = [] := by simpa [List.isEmpty_iff] using he
      subst hd
      simp
    · simp [he]
  · simp only [Markdown.renderText]
    by_cases he : (Markdown.scanAux [] data).isEmpty
    · have hz : Markdown.scanAux [] data = [] := by
        simpa [List.isEmpty_iff] using he
      have hc := Markdown.scanAux_chars data.length data [] (le_refl _)
      rw [hz] at hc
      have hrm : Markdown.removeMarkers data = [] := by
        simpa [Markdown.partsChars] using hc.symm
      have hd : data = [] := (Markdown.removeMarkers_eq_nil_iff data).mp hrm
      subst hd
      simp [he, Markdown.partsChars, Markdown.Part.text, Markdown.removeMarkers_nil_eq]
    · have hc := Markdown.scanAux_chars data.length data [] (le_refl _)
      simpa [he] using hc
  · simp only [Markdown.renderText]
    by_cases he : (Markdown.scanAux [] data).isEmpty
    · simp [he, Markdown.partsChars, Markdown.Part.text]
    · have hs := Markdown.scanAux_sublist data.length data [] (le_refl _)
      simpa [he] using hs
  · simp only [Markdown.renderText]
    by_cases he : (Markdown.scanAux [] data).isEmpty
    · simp [he, Markdown.partsChars, Markdown.Part.text]
    · have hf := Markdown.scanAux_filter data.length data [] (le_refl _)
      simpa [he] using hf

theorem claim_C10_witness :
    ('*' ∉ ("hello" : String).data) ∧
    Markdown.renderText "hello" = [Markdown.Part.plain "hello"] ∧
    Markdown.partsChars (Markdown.renderText "hello")
      = Markdown.removeMarkers ("hello" : String).data ∧
    List.Sublist (Markdown.partsChars (Markdown.renderText "hello"))
      ("hello" : String).data := by
  have h1 : '*' ∉ ("hello" : String).data := by decide
  exact ⟨h1, (claim_C10_markdown_renderText "hello").1 h1,
    (claim_C10_markdown_renderText "hello").2.1,
    (claim_C10_markdown_renderText "hello").2.2.1⟩

end CSBot
